import Mathlib

/-!
Shallow embedding of `src/ExtractComfyUIWorkflow.py`.

The script batch-processes a directory tree of PNG images: for each image it
extracts embedded generation metadata with an external reader (exiftool),
persists the metadata as a sidecar file, re-encodes the image to AVIF with an
external encoder (ImageMagick), and, only when the encoder reports success,
moves the original into a review tree.

Modelling choices:
  * A filesystem path is its list of components below the root (`FPath`).
  * The filesystem is an association list from paths to entries (`FS`); an
    entry is a regular file with a string content, or a directory.
  * The two external tools and the per-path outcome of `open(path, "w")`
    are oracles supplied in an environment record (`Env`).
  * Python exceptions are explicit values (`PyErr`); a function that can
    raise returns an `Except` together with the filesystem it leaves behind
    and the list of observable events (diagnostics printed, subprocess
    invocations, completed moves) it produced.
  * The worker pool of the batch driver is serialized in discovery order:
    the claims settled here concern per-file outcomes, counts and the final
    filesystem, none of which depend on the interleaving of workers (no two
    workers touch the same source file).
-/

/-- A filesystem path, as the list of its components below the root. -/
abbrev FPath := List String

/-- Decimal digit character for `n < 10` (total, with a dummy default). -/
def digitCh : Nat → Char
  | 0 => '0'
  | 1 => '1'
  | 2 => '2'
  | 3 => '3'
  | 4 => '4'
  | 5 => '5'
  | 6 => '6'
  | 7 => '7'
  | 8 => '8'
  | _ => '9'

/-- Numeric value of a decimal digit character (inverse of `digitCh`). -/
def chDigit : Char → Nat
  | '0' => 0
  | '1' => 1
  | '2' => 2
  | '3' => 3
  | '4' => 4
  | '5' => 5
  | '6' => 6
  | '7' => 7
  | '8' => 8
  | _ => 9

/-- Fuelled digit expansion of `n`, most significant digit first. -/
def natReprAux : Nat → Nat → List Char
  | 0, _ => []
  | fuel + 1, n => if n < 10 then [digitCh n] else natReprAux fuel (n / 10) ++ [digitCh (n % 10)]

/-- Decimal rendering of a natural number, as produced by a Python f-string. -/
def natRepr (n : Nat) : String := ⟨natReprAux (n + 1) n⟩

/-- Boolean test that the first list is a prefix of the second. -/
def listLe {α : Type} [DecidableEq α] : List α → List α → Bool
  | [], _ => true
  | _ :: _, [] => false
  | a :: as, b :: bs => if a = b then listLe as bs else false

/-- Boolean test that string `s` ends with `pat`. -/
def strEnds (s pat : String) : Bool := listLe pat.data.reverse s.data.reverse

/-- Index (from the front) of the last dot of the name, if any. -/
def lastDotAux : List Char → Nat → Option Nat → Option Nat
  | [], _, acc => acc
  | c :: cs, i, acc => lastDotAux cs (i + 1) (if c = '.' then some i else acc)

/-- Split index of a file name, following `pathlib`: the name is split at its
last dot when that dot is neither the first nor the last character; otherwise
the whole name is the stem and the suffix is empty. -/
def splitIdx (name : List Char) : Nat :=
  match lastDotAux name 0 none with
  | none => name.length
  | some i => if 0 < i ∧ i + 1 < name.length then i else name.length

/-- Final component of a path (Python `Path.name`; empty for the bare root). -/
def pathName (p : FPath) : String := p.getLastD ""

/-- Stem of the final component (Python `Path.stem`). -/
def pathStem (p : FPath) : String := ⟨(pathName p).data.take (splitIdx (pathName p).data)⟩

/-- Suffix of the final component (Python `Path.suffix`). -/
def pathSuffix (p : FPath) : String := ⟨(pathName p).data.drop (splitIdx (pathName p).data)⟩

/-- Replace the final component of the path (Python `Path.with_name`). -/
def withName (p : FPath) (s : String) : FPath := p.dropLast ++ [s]

/-- Replace the suffix of the final component (Python `Path.with_suffix`). -/
def withSuffix (p : FPath) (ext : String) : FPath := withName p (pathStem p ++ ext)

/-- Display form of a path, used in diagnostics. -/
def pathToStr (p : FPath) : String := String.intercalate "/" p

/-- A filesystem entry: a regular file with its content, or a directory. -/
inductive Entry
  | file (content : String)
  | dir
deriving DecidableEq

/-- The filesystem: an association list from paths to entries. -/
abbrev FS := List (FPath × Entry)

/-- First-match lookup of a path. -/
def fsLookup : FS → FPath → Option Entry
  | [], _ => none
  | (q, e) :: rest, p => if q = p then some e else fsLookup rest p

/-- Python `Path.exists`: true for a file or a directory. -/
def fsExists (fs : FS) (p : FPath) : Bool := (fsLookup fs p).isSome

/-- Python `Path.is_dir`. -/
def fsIsDir (fs : FS) (p : FPath) : Bool :=
  match fsLookup fs p with
  | some .dir => true
  | _ => false

/-- Test that the path holds a regular file. -/
def fsIsFile (fs : FS) (p : FPath) : Bool :=
  match fsLookup fs p with
  | some (.file _) => true
  | _ => false

/-- Create or overwrite the entry at a path. -/
def fsInsert : FS → FPath → Entry → FS
  | [], p, e => [(p, e)]
  | (q, e0) :: rest, p, e => if q = p then (p, e) :: rest else (q, e0) :: fsInsert rest p e

/-- Remove every entry at a path. -/
def fsErase (fs : FS) (p : FPath) : FS := fs.filter (fun pr => decide (pr.1 ≠ p))

/-- Dynamic JSON values, as produced by Python `json.loads`. Numeric tokens
are kept as lexed; no claim settled here inspects a reserialized number. -/
inductive Json where
  | null
  | bool (b : Bool)
  | num (tok : String)
  | str (s : String)
  | arr (elems : List Json)
  | obj (members : List (String × Json))

/-- JSON whitespace accepted between tokens by Python `json.loads`. -/
def isWs (c : Char) : Bool := c = ' ' || c = '\t' || c = '\n' || c = '\r'

/-- Drop leading JSON whitespace. -/
def skipWs : List Char → List Char
  | [] => []
  | c :: cs => if isWs c then skipWs cs else c :: cs

/-- Value of a hexadecimal digit character. -/
def hexVal (c : Char) : Option Nat :=
  if c.isDigit then some (c.toNat - 48)
  else if 'a' ≤ c ∧ c ≤ 'f' then some (c.toNat - 87)
  else if 'A' ≤ c ∧ c ≤ 'F' then some (c.toNat - 55)
  else none

/-- Read exactly four hexadecimal digits. -/
def parseHex4 : List Char → Option (Nat × List Char)
  | a :: b :: c :: d :: rest => do
    let x ← hexVal a
    let y ← hexVal b
    let z ← hexVal c
    let w ← hexVal d
    some (((x * 16 + y) * 16 + z) * 16 + w, rest)
  | _ => none

/-- Body of a JSON string literal, after the opening quote. Strict mode as in
Python: raw control characters are rejected. Lone surrogates from an escape
fall back to `Char.ofNat`; no claim settled here exercises surrogate pairs. -/
def parseStrLoop : Nat → List Char → List Char → Option (String × List Char)
  | 0, _, _ => none
  | fuel + 1, acc, cs =>
    match cs with
    | [] => none
    | '"' :: rest => some (⟨acc.reverse⟩, rest)
    | '\\' :: esc =>
      match esc with
      | [] => none
      | e :: rest =>
        if e = '"' then parseStrLoop fuel ('"' :: acc) rest
        else if e = '\\' then parseStrLoop fuel ('\\' :: acc) rest
        else if e = '/' then parseStrLoop fuel ('/' :: acc) rest
        else if e = 'b' then parseStrLoop fuel ('\x08' :: acc) rest
        else if e = 'f' then parseStrLoop fuel ('\x0c' :: acc) rest
        else if e = 'n' then parseStrLoop fuel ('\n' :: acc) rest
        else if e = 'r' then parseStrLoop fuel ('\x0d' :: acc) rest
        else if e = 't' then parseStrLoop fuel ('\t' :: acc) rest
        else if e = 'u' then
          match parseHex4 rest with
          | some (n, rest2) => parseStrLoop fuel (Char.ofNat n :: acc) rest2
          | none => none
        else none
    | c :: rest => if c.toNat < 32 then none else parseStrLoop fuel (c :: acc) rest

/-- Longest leading run of decimal digits. -/
def spanDigits : List Char → List Char × List Char
  | [] => ([], [])
  | c :: cs =>
    if c.isDigit then
      let (d, r) := spanDigits cs
      (c :: d, r)
    else ([], c :: cs)

/-- Optional fraction part of a JSON number. -/
def parseFrac : List Char → Option (List Char × List Char)
  | '.' :: cs =>
    match spanDigits cs with
    | ([], _) => none
    | (ds, r) => some ('.' :: ds, r)
  | cs => some ([], cs)

/-- Optional exponent part of a JSON number. -/
def parseExp : List Char → Option (List Char × List Char)
  | [] => some ([], [])
  | e :: cs =>
    if e = 'e' ∨ e = 'E' then
      let (sgn, cs1) : List Char × List Char :=
        match cs with
        | '+' :: t => (['+'], t)
        | '-' :: t => (['-'], t)
        | t => ([], t)
      match spanDigits cs1 with
      | ([], _) => none
      | (ds, r) => some (e :: (sgn ++ ds), r)
    else some ([], e :: cs)

/-- Assemble a number token from its integer part and the rest of the input. -/
def finishNum (neg ip r : List Char) : Option (List Char × List Char) := do
  let (fr, r2) ← parseFrac r
  let (ex, r3) ← parseExp r2
  some (neg ++ ip ++ fr ++ ex, r3)

/-- Lex one JSON number token (grammar of RFC 8259, as enforced by Python). -/
def parseNumTok (cs0 : List Char) : Option (List Char × List Char) :=
  let (neg, cs1) : List Char × List Char :=
    match cs0 with
    | '-' :: t => (['-'], t)
    | t => ([], t)
  match cs1 with
  | '0' :: t =>
    match t with
    | d :: _ => if d.isDigit then none else finishNum neg ['0'] t
    | [] => finishNum neg ['0'] []
  | c :: _ =>
    if c.isDigit then
      let (ds, r) := spanDigits cs1
      finishNum neg ds r
    else none
  | [] => none

/-- Insert a key into an object with Python dict semantics: replacement keeps
the position of the first occurrence of the key. -/
def objInsert : List (String × Json) → String → Json → List (String × Json)
  | [], k, v => [(k, v)]
  | (k0, v0) :: rest, k, v =>
    if k0 = k then (k, v) :: rest else (k0, v0) :: objInsert rest k v

mutual

/-- Parse one JSON value (fuelled recursive descent, modelling `json.loads`,
including the default acceptance of NaN and Infinity). -/
def parseVal : Nat → List Char → Option (Json × List Char)
  | 0, _ => none
  | fuel + 1, cs0 =>
    match skipWs cs0 with
    | [] => none
    | c :: rest =>
      if c = '\x7b' then parseObj fuel rest []
      else if c = '[' then parseArr fuel rest []
      else if c = '"' then
        match parseStrLoop (rest.length + 1) [] rest with
        | some (s, r) => some (.str s, r)
        | none => none
      else if c = 't' then
        match rest with
        | 'r' :: 'u' :: 'e' :: r => some (.bool true, r)
        | _ => none
      else if c = 'f' then
        match rest with
        | 'a' :: 'l' :: 's' :: 'e' :: r => some (.bool false, r)
        | _ => none
      else if c = 'n' then
        match rest with
        | 'u' :: 'l' :: 'l' :: r => some (.null, r)
        | _ => none
      else if c = 'N' then
        match rest with
        | 'a' :: 'N' :: r => some (.num "NaN", r)
        | _ => none
      else if c = 'I' then
        match rest with
        | 'n' :: 'f' :: 'i' :: 'n' :: 'i' :: 't' :: 'y' :: r => some (.num "Infinity", r)
        | _ => none
      else if c = '-' then
        match rest with
        | 'I' :: 'n' :: 'f' :: 'i' :: 'n' :: 'i' :: 't' :: 'y' :: r => some (.num "-Infinity", r)
        | _ =>
          match parseNumTok (c :: rest) with
          | some (t, r) => some (.num ⟨t⟩, r)
          | none => none
      else if c.isDigit then
        match parseNumTok (c :: rest) with
        | some (t, r) => some (.num ⟨t⟩, r)
        | none => none
      else none

/-- Parse array elements, the opening bracket already consumed. -/
def parseArr : Nat → List Char → List Json → Option (Json × List Char)
  | 0, _, _ => none
  | fuel + 1, cs0, acc =>
    match skipWs cs0 with
    | ']' :: r => if acc.isEmpty then some (.arr [], r) else none
    | cs =>
      match parseVal fuel cs with
      | none => none
      | some (v, r1) =>
        match skipWs r1 with
        | ',' :: r2 => parseArr fuel r2 (acc ++ [v])
        | ']' :: r2 => some (.arr (acc ++ [v]), r2)
        | _ => none

/-- Parse object members, the opening brace already consumed. -/
def parseObj : Nat → List Char → List (String × Json) → Option (Json × List Char)
  | 0, _, _ => none
  | fuel + 1, cs0, acc =>
    match skipWs cs0 with
    | '\x7d' :: r => if acc.isEmpty then some (.obj [], r) else none
    | '"' :: r =>
      match parseStrLoop (r.length + 1) [] r with
      | none => none
      | some (k, r1) =>
        match skipWs r1 with
        | ':' :: r2 =>
          match parseVal fuel r2 with
          | none => none
          | some (v, r3) =>
            match skipWs r3 with
            | ',' :: r4 => parseObj fuel r4 (objInsert acc k v)
            | '\x7d' :: r4 => some (.obj (objInsert acc k v), r4)
            | _ => none
        | _ => none
    | _ => none

end

/-- Python `json.loads` on a string: parse one value and require that only
whitespace follows; `none` models a raised `json.JSONDecodeError`. The fuel
bounds the recursion depth; two units per input character always suffice. -/
def json_loads (s : String) : Option Json :=
  match parseVal (2 * s.data.length + 2) s.data with
  | some (j, rest) => if (skipWs rest).isEmpty then some j else none
  | none => none

/-- Escape of one character inside a JSON string literal, as produced by
Python `json.dump` with `ensure_ascii=False`. -/
def jsonEscapeChar (c : Char) : List Char :=
  if c = '"' then ['\\', '"']
  else if c = '\\' then ['\\', '\\']
  else if c = '\n' then ['\\', 'n']
  else if c = '\t' then ['\\', 't']
  else if c = '\x0d' then ['\\', 'r']
  else if c = '\x08' then ['\\', 'b']
  else if c = '\x0c' then ['\\', 'f']
  else if c.toNat < 32 then
    ['\\', 'u', '0', '0',
     (if c.toNat / 16 < 10 then digitCh (c.toNat / 16) else 'x'),
     (if c.toNat % 16 < 10 then digitCh (c.toNat % 16)
      else Char.ofNat (87 + c.toNat % 16))]
  else [c]

/-- Serialization of a string as a JSON string literal: the raw value wrapped
in double quotes, with quotes, backslashes and control characters escaped. -/
def encodeJsonString (s : String) : String :=
  ⟨'"' :: s.data.foldr (fun c acc => jsonEscapeChar c ++ acc) ['"']⟩

/-- Indentation produced by `json.dump` with `indent=4`. -/
def nSpaces (n : Nat) : String := ⟨List.replicate n ' '⟩

mutual

/-- Python `json.dump(..., ensure_ascii=False, indent=4)` of a value placed at
nesting level `lvl`. -/
def jsonDump : Json → Nat → String
  | .null, _ => "null"
  | .bool true, _ => "true"
  | .bool false, _ => "false"
  | .num t, _ => t
  | .str s, _ => encodeJsonString s
  | .arr [], _ => "[]"
  | .arr (x :: xs), lvl =>
    "[\n" ++ dumpElems (x :: xs) (lvl + 1) ++ "\n" ++ nSpaces (4 * lvl) ++ "]"
  | .obj [], _ => "\x7b\x7d"
  | .obj (m :: ms), lvl =>
    "\x7b\n" ++ dumpMembers (m :: ms) (lvl + 1) ++ "\n" ++ nSpaces (4 * lvl) ++ "\x7d"

/-- Array elements, one per line, comma separated. -/
def dumpElems : List Json → Nat → String
  | [], _ => ""
  | [x], lvl => nSpaces (4 * lvl) ++ jsonDump x lvl
  | x :: y :: xs, lvl =>
    nSpaces (4 * lvl) ++ jsonDump x lvl ++ ",\n" ++ dumpElems (y :: xs) lvl

/-- Object members, one per line, comma separated. -/
def dumpMembers : List (String × Json) → Nat → String
  | [], _ => ""
  | [(k, v)], lvl => nSpaces (4 * lvl) ++ encodeJsonString k ++ ": " ++ jsonDump v lvl
  | (k, v) :: m :: ms, lvl =>
    nSpaces (4 * lvl) ++ encodeJsonString k ++ ": " ++ jsonDump v lvl ++ ",\n" ++
      dumpMembers (m :: ms) lvl

end

/-- Python exceptions distinguished by the script (or escaping from it). -/
inductive PyErr
  | oserror
  | fileNotFoundError
  | fileExistsError
  | typeError
  | valueError
  | shutilError
  | environmentError (msg : String)
deriving DecidableEq

/-- Observable events: printed diagnostics, sidecar opens, encoder
invocations, and completed moves. -/
inductive Event
  | print (msg : String)
  | openCall (p : FPath)
  | convertCall (src dst : FPath)
  | moveCall (src dst : FPath)
deriving DecidableEq

/-- Result of `subprocess.run` on an external tool: an exit code, or a
failure to launch the process at all (e.g. `FileNotFoundError`). -/
inductive ProcResult
  | exit (code : Nat)
  | launchFail
deriving DecidableEq

/-- Metadata mapping as returned by `extract_metadata`. The pipeline only
ever reads the `Workflow` and `Parameters` tags, whose values are strings in
the JSON output of exiftool, so values are modelled as strings. -/
abbrev Metadata := List (String × String)

/-- First-match lookup of a tag (Python `key in dict` / `dict[key]`). -/
def metaLookup : Metadata → String → Option String
  | [], _ => none
  | (k, v) :: rest, key => if k = key then some v else metaLookup rest key

/-- Oracles for the external collaborators of one run: the metadata read for
each path (the exiftool subprocess together with the catch-all error handling
of `extract_metadata`, which always yields a mapping and never raises), the
result of the ImageMagick subprocess per (source, destination) pair, and
whether `open(path, "w")` raises an `OSError` at a path. -/
structure Env where
  exifMeta : FPath → Metadata
  magick : FPath → FPath → ProcResult
  openFail : FPath → Bool

/-- Outcome of a step of the pipeline: the filesystem it leaves behind, the
events it produced, and either a normal return or a raised exception. -/
structure StepResult where
  fs : FS
  trace : List Event
  err : Except PyErr Unit

/-- Outcome of `compress_to_avif`, whose normal return carries a boolean. -/
structure ConvResult where
  fs : FS
  trace : List Event
  result : Except PyErr Bool

/-- Content the external encoder leaves at the destination on success. -/
def avifContent (png_path : FPath) : String := "avif-encode:" ++ pathToStr png_path

/-- Embedding of `compress_to_avif` (source lines 33-64): invokes ImageMagick
with `check=True`; a non-zero exit raises `CalledProcessError`, which is
caught, printed and turned into `False`; a zero exit returns `True` (the tool
having written the destination file, overwriting any previous content); a
failure to launch the subprocess raises `FileNotFoundError`, which the
`except subprocess.CalledProcessError` clause does not catch, so it
propagates to the caller. -/
def compress_to_avif (env : Env) (fs : FS) (png_path avif_path : FPath) : ConvResult :=
  match env.magick png_path avif_path with
  | .exit 0 =>
    ⟨fsInsert fs avif_path (.file (avifContent png_path)),
     [.convertCall png_path avif_path], .ok true⟩
  | .exit (_ + 1) =>
    ⟨fs,
     [.convertCall png_path avif_path,
      .print ("Error compressing " ++ pathToStr png_path ++ " to AVIF")],
     .ok false⟩
  | .launchFail =>
    ⟨fs, [.convertCall png_path avif_path], .error .fileNotFoundError⟩

/-- Embedding of `extract_metadata` (source lines 66-132): the exiftool
subprocess, its JSON output and the catch-all error handling (which returns
an empty mapping on any failure and never raises) are collapsed into the
`exifMeta` oracle, per the external-collaborator contract of the spec. -/
def extract_metadata (env : Env) (image_path : FPath) : Metadata := env.exifMeta image_path

/-- Python values that reach `save_metadata`: a string, a parsed JSON value,
or some other object that `json.dump` cannot serialize (`TypeError`). -/
inductive PyValue
  | str (s : String)
  | jsonVal (j : Json)
  | other (r : String)

/-- Python `str()` of a `PyValue`, used by the raw-text branch of
`save_metadata`. The pipeline only reaches that branch with a string, so
only the first case is ever exercised by the claims. -/
def pyStrOf : PyValue → String
  | .str s => s
  | .jsonVal j => jsonDump j 0
  | .other r => r

/-- Result of `json.dump(metadata, ...)`: the serialized text, or `none` for
a raised `TypeError` (non-serializable object). -/
def serializePy : PyValue → Option String
  | .str s => some (jsonDump (.str s) 0)
  | .jsonVal j => some (jsonDump j 0)
  | .other _ => none

/-- The candidate visited by `ensure_unique_filename` after `k` collisions:
the desired path itself, then the original stem suffixed with `_1`, `_2`,
... with the extension preserved. -/
def visitPath (file_path : FPath) : Nat → FPath
  | 0 => file_path
  | k + 1 => withName file_path (pathStem file_path ++ "_" ++ natRepr (k + 1) ++ pathSuffix file_path)

/-- Fuelled form of the `while unique_path.exists()` loop of
`ensure_unique_filename` (source lines 165-186), carrying the counter and
the current candidate exactly as the source does. -/
def uniqueLoop (fs : FS) (file_path : FPath) : Nat → Nat → FPath → FPath
  | 0, _, unique_path => unique_path
  | fuel + 1, counter, unique_path =>
    if fsExists fs unique_path then
      uniqueLoop fs file_path fuel (counter + 1)
        (withName file_path (pathStem file_path ++ "_" ++ natRepr counter ++ pathSuffix file_path))
    else unique_path

/-- Embedding of `ensure_unique_filename`: the loop terminates on the first
candidate that does not exist; since successive candidates are pairwise
distinct, a fuel of one more than the number of filesystem entries always
suffices to find it. -/
def ensure_unique_filename (fs : FS) (file_path : FPath) : FPath :=
  uniqueLoop fs file_path (fs.length + 1) 1 file_path

/-- Embedding of `save_metadata` (source lines 134-163): derive the sidecar
path, uniquify it, open it for writing (creating or truncating the file; a
failing open raises `OSError` which nothing in the function catches), then
either `json.dump` the value (catching only `TypeError`, which leaves the
just-created file empty) or write it as raw text. -/
def save_metadata (env : Env) (fs : FS) (file_path : FPath) (metadata : PyValue)
    (extension : String) : StepResult :=
  let save_path := ensure_unique_filename fs (withSuffix file_path extension)
  if env.openFail save_path then
    ⟨fs, [.openCall save_path], .error .oserror⟩
  else
    let fs1 := fsInsert fs save_path (.file "")
    if extension = ".json" then
      match serializePy metadata with
      | some out =>
        ⟨fsInsert fs1 save_path (.file out),
         [.openCall save_path, .print ("Saved metadata to " ++ pathToStr save_path)], .ok ()⟩
      | none =>
        ⟨fs1,
         [.openCall save_path,
          .print ("Error saving JSON metadata for " ++ pathToStr file_path)], .ok ()⟩
    else
      ⟨fsInsert fs1 save_path (.file (pyStrOf metadata)),
       [.openCall save_path, .print ("Saved metadata to " ++ pathToStr save_path)], .ok ()⟩

/-- Python `PurePath.relative_to`: strip the root prefix, or raise
`ValueError` when the path is not below the root. -/
def relativeTo (p root : FPath) : Option FPath :=
  if listLe root p then some (p.drop root.length) else none

/-- One pass of `os.makedirs`: create each listed directory in turn, raising
when a regular file occupies the place of a directory (the `exist_ok=True`
flag only forgives existing directories). -/
def mkdirParentsAux : FS → List FPath → FS × Except PyErr Unit
  | fs, [] => (fs, .ok ())
  | fs, q :: rest =>
    match fsLookup fs q with
    | some (.file _) => (fs, .error .fileExistsError)
    | some .dir => mkdirParentsAux fs rest
    | none => mkdirParentsAux (fsInsert fs q .dir) rest

/-- Python `Path.mkdir(parents=True, exist_ok=True)`: create every prefix of
the path, shortest first. -/
def mkdirParents (fs : FS) (d : FPath) : FS × Except PyErr Unit :=
  mkdirParentsAux fs ((List.range d.length).map (fun k => d.take (k + 1)))

/-- Rename an entry (and, for a directory, its whole subtree) from `src` to
`real`, first discarding any regular file previously at `real` — the
destination-overwrite semantics shared by POSIX `os.rename` and by the
`copy2` fallback of `shutil.move` on other platforms. -/
def shutilMoveRename (fs : FS) (src real : FPath) : FS :=
  (fsErase fs real).map
    (fun pr => if listLe src pr.1 then (real ++ pr.1.drop src.length, pr.2) else pr)

/-- Embedding of `shutil.move`: when the destination is an existing
directory, the source is moved inside it under its own base name, and
`shutil.Error` is raised if that inner name is already taken; otherwise the
source is renamed onto the destination, silently replacing a regular file
already there. A missing source raises `FileNotFoundError`; renaming a
directory over a regular file raises `OSError`. Returns the real
destination. -/
def shutil_move (fs : FS) (src dst : FPath) : FS × Except PyErr FPath :=
  if fsIsDir fs dst then
    let real := dst ++ [pathName src]
    if fsExists fs real then (fs, .error .shutilError)
    else if fsExists fs src then (shutilMoveRename fs src real, .ok real)
    else (fs, .error .fileNotFoundError)
  else
    if fsExists fs src then
      if fsIsDir fs src && fsIsFile fs dst then (fs, .error .oserror)
      else (shutilMoveRename fs src dst, .ok dst)
    else (fs, .error .fileNotFoundError)

/-- Embedding of `move_file_with_structure` (source lines 188-207): compute
the path relative to the root, create the missing destination directories,
then `shutil.move` the file. Nothing in the function catches an exception. -/
def move_file_with_structure (fs : FS) (file_path root_folder destination_folder : FPath) :
    StepResult :=
  match relativeTo file_path root_folder with
  | none => ⟨fs, [], .error .valueError⟩
  | some relative_path =>
    let destination_path := destination_folder ++ relative_path
    match mkdirParents fs destination_path.dropLast with
    | (fs1, .error e) => ⟨fs1, [], .error e⟩
    | (fs1, .ok ()) =>
      match shutil_move fs1 file_path destination_path with
      | (fs2, .ok real) => ⟨fs2, [.moveCall file_path real], .ok ()⟩
      | (fs2, .error e) => ⟨fs2, [], .error e⟩

/-- The classify-and-write phase of `process_png_file` (source lines
224-246): prefer the `Workflow` tag, parsing it as JSON and falling back to
saving the raw string under `.json` when parsing fails; otherwise save a
`Parameters` tag as `.txt`; otherwise only print a note. Only
`json.JSONDecodeError` is caught here; an exception out of `save_metadata`
propagates. -/
def classify_and_write (env : Env) (fs : FS) (image_path : FPath) : StepResult :=
  let metadata := extract_metadata env image_path
  match metaLookup metadata "Workflow" with
  | some data =>
    match json_loads data with
    | some json_data => save_metadata env fs image_path (.jsonVal json_data) ".json"
    | none =>
      let r := save_metadata env fs image_path (.str data) ".json"
      ⟨r.fs, .print ("Error parsing Workflow metadata in " ++ pathToStr image_path) :: r.trace,
       r.err⟩
  | none =>
    match metaLookup metadata "Parameters" with
    | some params => save_metadata env fs image_path (.str params) ".txt"
    | none =>
      ⟨fs, [.print ("No Workflow or Parameters metadata found for: " ++ pathToStr image_path)],
       .ok ()⟩

/-- Embedding of `process_png_file` (source lines 209-252): classify and
write the sidecar, then convert to AVIF at the source path with its suffix
replaced by `.avif`, and only when the converter returns `True` move the
original into the review tree. Any exception escapes to the caller. -/
def process_png_file (env : Env) (fs : FS) (image_path root_folder review_folder : FPath) :
    StepResult :=
  match classify_and_write env fs image_path with
  | ⟨fs1, tr1, .error e⟩ => ⟨fs1, tr1, .error e⟩
  | ⟨fs1, tr1, .ok ()⟩ =>
    let avif_path := withSuffix image_path ".avif"
    match compress_to_avif env fs1 image_path avif_path with
    | ⟨fs2, tr2, .error e⟩ => ⟨fs2, tr1 ++ tr2, .error e⟩
    | ⟨fs2, tr2, .ok false⟩ => ⟨fs2, tr1 ++ tr2, .ok ()⟩
    | ⟨fs2, tr2, .ok true⟩ =>
      let r := move_file_with_structure fs2 image_path root_folder review_folder
      ⟨r.fs, tr1 ++ tr2 ++ r.trace, r.err⟩

/-- Recursive enumeration `folder.rglob("*.png")`: every strict descendant of
the folder whose final component ends in `.png`, in filesystem order. -/
def rglobPng (fs : FS) (folder : FPath) : List FPath :=
  (fs.map Prod.fst).filter
    (fun p => listLe folder p && decide (p ≠ folder) && strEnds (pathName p) ".png")

/-- Aggregate state of the batch driver: the filesystem, the events printed
so far, the number of progress-bar updates, and one recorded outcome per
completed file (`none` for a normal pipeline return, `some e` for an
exception caught at the driver). -/
structure BatchResult where
  fs : FS
  trace : List Event
  updates : Nat
  outcomes : List (Option PyErr)
deriving DecidableEq

/-- One iteration of the `as_completed` loop of the driver (source lines
286-296): retrieve the result of one file, catch any exception as a printed
per-file failure, and update the progress bar in the `finally` block either
way. -/
def processOneFile (env : Env) (root_folder review_folder : FPath) (acc : BatchResult)
    (file : FPath) : BatchResult :=
  let r := process_png_file env acc.fs file root_folder review_folder
  match r.err with
  | .ok () => ⟨r.fs, acc.trace ++ r.trace, acc.updates + 1, acc.outcomes ++ [none]⟩
  | .error e =>
    ⟨r.fs, acc.trace ++ r.trace ++ [.print ("Error processing file " ++ pathToStr file)],
     acc.updates + 1, acc.outcomes ++ [some e]⟩

/-- Embedding of `process_images_concurrently` (source lines 254-296):
enumerate the PNG files once up front, return early with a message when
there are none, and otherwise run every file through the pipeline,
collecting one outcome per file. The bounded worker pool is serialized in
discovery order (see the module docstring). -/
def process_images_concurrently (env : Env) (fs : FS) (folder_path review_folder : FPath) :
    BatchResult :=
  let png_files := rglobPng fs folder_path
  if png_files.isEmpty then
    ⟨fs, [.print "No PNG files found in the specified directory."], 0, []⟩
  else
    png_files.foldl (processOneFile env folder_path review_folder) ⟨fs, [], 0, []⟩

/-- Configuration of one invocation of `main`: whether `shutil.which` finds
each required tool, the (already resolved) folder answers to the two input
prompts, and the oracles for the processing phase. -/
structure MainEnv where
  magickOnPath : Bool
  exiftoolOnPath : Bool
  imagesFolder : FPath
  reviewInput : Option FPath
  procEnv : Env

/-- Embedding of `check_dependencies` (source lines 13-31): raise
`EnvironmentError` on the first required tool missing from the search
path. -/
def check_dependencies (menv : MainEnv) : Except PyErr Unit :=
  if menv.magickOnPath = false then
    .error (.environmentError "magick is not installed or not in the system PATH.")
  else if menv.exiftoolOnPath = false then
    .error (.environmentError "exiftool is not installed or not in the system PATH.")
  else .ok ()

/-- Result of the whole program: the final filesystem, the printed events,
and the process exit status (0 for a normal return from `main`, 1 for an
uncaught exception aborting the interpreter). -/
structure MainResult where
  fs : FS
  trace : List Event
  exitCode : Nat
deriving DecidableEq

/-- Embedding of `main` (source lines 298-341): a missing dependency is
caught, printed, and followed by a plain `return` (normal exit); an
invalid images folder likewise prints and returns; otherwise the review
folder is created and the batch is run. (Named `main_run` because Lean
reserves `main` for an executable entry point.) -/
def main_run (menv : MainEnv) (fs : FS) : MainResult :=
  match check_dependencies menv with
  | .error (.environmentError msg) => ⟨fs, [.print msg], 0⟩
  | .error _ => ⟨fs, [], 1⟩
  | .ok () =>
    let images_folder := menv.imagesFolder
    if fsIsDir fs images_folder = false then
      ⟨fs, [.print ("Invalid path: " ++ pathToStr images_folder ++ " is not a directory.")], 0⟩
    else
      let review_folder :=
        match menv.reviewInput with
        | some rv => rv
        | none => images_folder ++ ["Review"]
      match mkdirParents fs review_folder with
      | (fs1, .error _) => ⟨fs1, [], 1⟩
      | (fs1, .ok ()) =>
        let b := process_images_concurrently menv.procEnv fs1 images_folder review_folder
        ⟨b.fs,
         .print ("Review folder set to: " ++ pathToStr review_folder) ::
           b.trace ++ [.print "Processing complete."], 0⟩

/-! ### Supporting definitions for concrete scenarios and proofs -/

/-- Value of a decimal digit string, used to invert `natReprAux`. -/
def digitsVal (l : List Char) : Nat := l.foldl (fun a c => a * 10 + chDigit c) 0

/-- Environment whose encoder cannot be launched. -/
def launchFailEnv : Env := ⟨fun _ => [], fun _ _ => .launchFail, fun _ => false⟩

/-- Environment whose tools succeed and whose metadata is a Parameters tag. -/
def paramsEnv : Env := ⟨fun _ => [("Parameters", "steps: 20")], fun _ _ => .exit 0, fun _ => false⟩

/-- Environment carrying a Workflow tag that is not parseable as JSON. -/
def badWorkflowEnv : Env := ⟨fun _ => [("Workflow", "nope")], fun _ _ => .exit 0, fun _ => false⟩

/-- Environment where opening any sidecar file raises `OSError`. -/
def openFailEnv : Env := ⟨fun _ => [("Parameters", "steps: 20")], fun _ _ => .exit 0, fun _ => true⟩

/-- Environment whose encoder always exits with code 1. -/
def convFailEnv : Env := ⟨fun _ => [("Parameters", "steps: 20")], fun _ _ => .exit 1, fun _ => false⟩

/-- Environment with no metadata and a succeeding encoder. -/
def plainOkEnv : Env := ⟨fun _ => [], fun _ _ => .exit 0, fun _ => false⟩

/-- A scan root holding one PNG file. -/
def demoFS : FS := [(["root"], .dir), (["root", "a"], .dir), (["root", "a", "img.png"], .file "PNG")]

/-- A filesystem where a regular file blocks a directory needed under the
review root, so that relocation of the PNG must fail. -/
def blockedFS : FS :=
  [(["root"], .dir), (["root", "a"], .dir), (["root", "a", "img.png"], .file "PNG"),
   (["rev"], .dir), (["rev", "a"], .file "BLOCK")]

/-- A filesystem where the relocation destination path is already occupied by
a regular file. -/
def overwriteFS : FS := [(["s.png"], .file "S"), (["rev"], .dir), (["rev", "s.png"], .file "OLD")]

/-- A scan root holding one PNG next to a stale AVIF artifact at the natural
conversion destination. -/
def existingAvifFS : FS :=
  [(["root"], .dir), (["root", "a"], .dir), (["root", "a", "img.png"], .file "PNG"),
   (["root", "a", "img.avif"], .file "OLDAVIF")]

/-- Main environment with ImageMagick missing from the search path. -/
def noMagickMainEnv : MainEnv := ⟨false, true, ["root"], none, plainOkEnv⟩

/-- Main environment whose images-folder answer is not a directory. -/
def badDirMainEnv : MainEnv := ⟨true, true, ["nope"], none, plainOkEnv⟩

/-! ### Helper lemmas: prefixes, lookups, decimal representations -/

theorem listLe_refl {α : Type} [DecidableEq α] (l : List α) : listLe l l = true := by
  induction l with
  | nil => rfl
  | cons a as ih => simp [listLe, ih]

theorem listLe_append {α : Type} [DecidableEq α] (l m : List α) : listLe l (l ++ m) = true := by
  induction l with
  | nil => rfl
  | cons a as ih => simp [listLe, ih]

theorem listLe_iff_append {α : Type} [DecidableEq α] :
    ∀ {a b : List α}, listLe a b = true ↔ ∃ t, b = a ++ t := by
  intro a
  induction a with
  | nil => intro b; simp [listLe]
  | cons x xs ih =>
    intro b
    cases b with
    | nil => simp [listLe]
    | cons y ys =>
      constructor
      · intro h
        rw [listLe] at h
        split at h
        · next hxy =>
          obtain ⟨t, rfl⟩ := ih.mp h
          exact ⟨t, by rw [hxy]; rfl⟩
        · exact absurd h (by simp)
      · rintro ⟨t, ht⟩
        rw [List.cons_append] at ht
        injection ht with h1 h2
        subst h1
        rw [listLe, if_pos rfl]
        exact ih.mpr ⟨t, h2⟩

theorem listLe_length {α : Type} [DecidableEq α] {a b : List α} (h : listLe a b = true) :
    a.length ≤ b.length := by
  obtain ⟨t, rfl⟩ := listLe_iff_append.mp h
  simp

theorem listLe_eq_of_length {α : Type} [DecidableEq α] {a b : List α} (h : listLe a b = true)
    (hl : b.length ≤ a.length) : a = b := by
  obtain ⟨t, rfl⟩ := listLe_iff_append.mp h
  have : t = [] := by
    apply List.eq_nil_of_length_eq_zero
    have := List.length_append a t
    omega
  simp [this]

theorem listLe_drop_append {α : Type} [DecidableEq α] {a b : List α} (h : listLe a b = true) :
    a ++ b.drop a.length = b := by
  obtain ⟨t, rfl⟩ := listLe_iff_append.mp h
  rw [List.drop_left]

theorem listLe_concat_cases {α : Type} [DecidableEq α] {r xs : List α} {x : α}
    (h : listLe r (xs ++ [x]) = true) : r = xs ++ [x] ∨ listLe r xs = true := by
  obtain ⟨t, ht⟩ := listLe_iff_append.mp h
  rcases List.eq_nil_or_concat t with rfl | ⟨t2, z, rfl⟩
  · left; rw [ht]; simp
  · right
    rw [List.concat_eq_append, ← List.append_assoc] at ht
    have := List.append_inj' ht (by rfl)
    exact listLe_iff_append.mpr ⟨t2, this.1⟩

theorem fsLookup_fsInsert (fs : FS) (p : FPath) (e : Entry) (q : FPath) :
    fsLookup (fsInsert fs p e) q = if p = q then some e else fsLookup fs q := by
  induction fs with
  | nil => simp [fsInsert, fsLookup]
  | cons pr rest ih =>
    obtain ⟨r, e0⟩ := pr
    by_cases hrp : r = p
    · subst hrp
      simp only [fsInsert, if_pos rfl, fsLookup]
      by_cases hq : r = q
      · simp [hq]
      · simp [hq, fsLookup]
    · simp only [fsInsert, if_neg hrp, fsLookup]
      by_cases hq : r = q
      · subst hq
        have hpq : ¬ p = r := fun h => hrp h.symm
        simp [hpq]
      · simp [hq, ih]

theorem fsLookup_mem_of_isSome {fs : FS} {p : FPath} (h : (fsLookup fs p).isSome) :
    p ∈ fs.map Prod.fst := by
  induction fs with
  | nil => simp [fsLookup] at h
  | cons pr rest ih =>
    obtain ⟨r, e0⟩ := pr
    rw [fsLookup] at h
    by_cases hq : r = p
    · subst hq
      rw [List.map_cons]
      exact List.mem_cons_self _ _
    · rw [if_neg hq] at h
      rw [List.map_cons]
      exact List.mem_cons_of_mem _ (ih h)

theorem chDigit_digitCh {n : Nat} (h : n < 10) : chDigit (digitCh n) = n := by
  interval_cases n <;> rfl

theorem digitsVal_append (l : List Char) (c : Char) :
    digitsVal (l ++ [c]) = digitsVal l * 10 + chDigit c := by
  simp [digitsVal, List.foldl_append]

theorem digitsVal_natReprAux : ∀ fuel n, n < fuel → digitsVal (natReprAux fuel n) = n := by
  intro fuel
  induction fuel with
  | zero => intro n h; omega
  | succ f ih =>
    intro n h
    by_cases h10 : n < 10
    · simp only [natReprAux, if_pos h10]
      simp [digitsVal, chDigit_digitCh h10]
    · have hd : n / 10 < f := by
        have h1 : n / 10 < n := Nat.div_lt_self (by omega) (by omega)
        omega
      simp only [natReprAux, if_neg h10]
      rw [digitsVal_append, ih _ hd, chDigit_digitCh (Nat.mod_lt n (by omega))]
      omega

theorem natReprAux_inj {a b : Nat} (h : natReprAux (a + 1) a = natReprAux (b + 1) b) : a = b := by
  have ha := digitsVal_natReprAux (a + 1) a (by omega)
  have hb := digitsVal_natReprAux (b + 1) b (by omega)
  rw [← ha, ← hb, h]

theorem natReprAux_ne_nil (fuel n : Nat) : natReprAux (fuel + 1) n ≠ [] := by
  rw [natReprAux]
  split
  · simp
  · simp

theorem stem_data_append_suffix_data (p : FPath) :
    (pathStem p).data ++ (pathSuffix p).data = (pathName p).data := by
  simp [pathStem, pathSuffix]

/-! ### Helper lemmas: the unique path allocator -/

theorem visitPath_zero (p : FPath) : visitPath p 0 = p := rfl

theorem visitPath_succ (p : FPath) (k : Nat) :
    visitPath p (k + 1) = p.dropLast ++ [pathStem p ++ "_" ++ natRepr (k + 1) ++ pathSuffix p] :=
  rfl

theorem candName_data (p : FPath) (i : Nat) :
    (pathStem p ++ "_" ++ natRepr i ++ pathSuffix p).data
      = (pathStem p).data ++ '_' :: (natReprAux (i + 1) i ++ (pathSuffix p).data) := by
  simp [String.data_append, natRepr]

theorem visitPath_inj (p : FPath) : ∀ {i j : Nat}, visitPath p i = visitPath p j → i = j := by
  have hcand : ∀ i j : Nat,
      (pathStem p ++ "_" ++ natRepr (i + 1) ++ pathSuffix p)
        = (pathStem p ++ "_" ++ natRepr (j + 1) ++ pathSuffix p) → i = j := by
    intro i j h
    have hd := congrArg String.data h
    rw [candName_data, candName_data] at hd
    have h1 := List.append_cancel_left hd
    injection h1 with _ h2
    have h3 := List.append_cancel_right h2
    have := natReprAux_inj h3
    omega
  have hzero : ∀ k : Nat, visitPath p 0 ≠ visitPath p (k + 1) := by
    intro k h
    rw [visitPath_zero, visitPath_succ] at h
    have hn := congrArg (fun l => List.getLastD l "") h
    simp only [List.getLastD_concat] at hn
    have hd := congrArg String.data hn
    rw [candName_data] at hd
    have hd2 : (pathStem p).data ++ (pathSuffix p).data
        = (pathStem p).data ++ '_' :: (natReprAux (k + 1 + 1) (k + 1) ++ (pathSuffix p).data) := by
      rw [stem_data_append_suffix_data]
      exact hd
    have h1 := List.append_cancel_left hd2
    have := congrArg List.length h1
    simp at this
    omega
  intro i j h
  match i, j with
  | 0, 0 => rfl
  | 0, k + 1 => exact absurd h (hzero k)
  | k + 1, 0 => exact absurd h.symm (hzero k)
  | a + 1, b + 1 =>
    rw [visitPath_succ, visitPath_succ] at h
    have h1 := List.append_cancel_left h
    injection h1 with h2 _
    have := hcand a b h2
    omega

theorem exists_free_visit (fs : FS) (p : FPath) :
    ∃ k, k ≤ fs.length ∧ fsExists fs (visitPath p k) = false := by
  by_contra hc
  push_neg at hc
  have hall : ∀ k, k ≤ fs.length → fsExists fs (visitPath p k) = true := by
    intro k hk
    have h := hc k hk
    cases hb : fsExists fs (visitPath p k)
    · exact absurd hb h
    · rfl
  have hmem : ∀ k ∈ Finset.range (fs.length + 1),
      visitPath p k ∈ (fs.map Prod.fst).toFinset := by
    intro k hk
    rw [Finset.mem_range] at hk
    rw [List.mem_toFinset]
    have := hall k (by omega)
    rw [fsExists] at this
    exact fsLookup_mem_of_isSome this
  have hinj : Set.InjOn (visitPath p) (Finset.range (fs.length + 1)) := by
    intro a _ b _ hab
    exact visitPath_inj p hab
  have hcard := Finset.card_le_card_of_injOn (visitPath p) hmem hinj
  rw [Finset.card_range] at hcard
  have hle := List.toFinset_card_le (fs.map Prod.fst)
  rw [List.length_map] at hle
  omega

theorem uniqueLoop_succ (fs : FS) (p : FPath) (f counter : Nat) (u : FPath) :
    uniqueLoop fs p (f + 1) counter u =
      if fsExists fs u then
        uniqueLoop fs p f (counter + 1)
          (withName p (pathStem p ++ "_" ++ natRepr counter ++ pathSuffix p))
      else u := rfl

theorem uniqueLoop_spec (fs : FS) (p : FPath) :
    ∀ fuel k, (∃ j, j < fuel ∧ fsExists fs (visitPath p (k + j)) = false) →
      ∃ j, j < fuel ∧
        uniqueLoop fs p fuel (k + 1) (visitPath p k) = visitPath p (k + j) ∧
        fsExists fs (visitPath p (k + j)) = false ∧
        ∀ i, i < j → fsExists fs (visitPath p (k + i)) = true := by
  intro fuel
  induction fuel with
  | zero =>
    rintro k ⟨j, hj, _⟩
    omega
  | succ f ih =>
    intro k hex
    by_cases hk : fsExists fs (visitPath p k) = true
    · have step : uniqueLoop fs p (f + 1) (k + 1) (visitPath p k)
          = uniqueLoop fs p f (k + 2) (visitPath p (k + 1)) := by
        rw [uniqueLoop_succ, hk]
        rfl
      obtain ⟨j, hj, hfree⟩ := hex
      have hj0 : j ≠ 0 := by
        rintro rfl
        rw [Nat.add_zero, hk] at hfree
        cases hfree
      obtain ⟨j', rfl⟩ : ∃ j', j = j' + 1 := ⟨j - 1, by omega⟩
      have hex2 : ∃ j2, j2 < f ∧ fsExists fs (visitPath p ((k + 1) + j2)) = false := by
        refine ⟨j', by omega, ?_⟩
        have hidx : (k + 1) + j' = k + (j' + 1) := by omega
        rw [hidx]
        exact hfree
      obtain ⟨j2, hj2, heq, hfree2, hall⟩ := ih (k + 1) hex2
      have hidx2 : (k + 1) + j2 = k + (j2 + 1) := by omega
      refine ⟨j2 + 1, by omega, ?_, ?_, ?_⟩
      · rw [step]
        rw [hidx2] at heq
        exact heq
      · rw [hidx2] at hfree2
        exact hfree2
      · intro i hi
        cases i with
        | zero => simpa using hk
        | succ i2 =>
          have h3 := hall i2 (by omega)
          have hidx3 : (k + 1) + i2 = k + (i2 + 1) := by omega
          rwa [hidx3] at h3
    · have hkf : fsExists fs (visitPath p k) = false := by
        cases hb : fsExists fs (visitPath p k)
        · rfl
        · exact absurd hb hk
      refine ⟨0, by omega, ?_, by simpa using hkf, by omega⟩
      rw [uniqueLoop_succ, hkf]
      rfl

theorem ensure_unique_spec (fs : FS) (p : FPath) :
    ∃ j, ensure_unique_filename fs p = visitPath p j ∧
      fsExists fs (visitPath p j) = false ∧
      ∀ i, i < j → fsExists fs (visitPath p i) = true := by
  obtain ⟨k, hk, hfree⟩ := exists_free_visit fs p
  have hex : ∃ j, j < fs.length + 1 ∧ fsExists fs (visitPath p (0 + j)) = false :=
    ⟨k, by omega, by simpa using hfree⟩
  obtain ⟨j, _, heq, hfree2, hall⟩ := uniqueLoop_spec fs p (fs.length + 1) 0 hex
  refine ⟨j, ?_, by simpa using hfree2, fun i hi => by simpa using hall i hi⟩
  have h0 : ensure_unique_filename fs p = uniqueLoop fs p (fs.length + 1) (0 + 1) (visitPath p 0) :=
    rfl
  rw [h0, heq]
  simp

theorem ensure_unique_not_exists (fs : FS) (p : FPath) :
    fsExists fs (ensure_unique_filename fs p) = false := by
  obtain ⟨j, heq, hfree, _⟩ := ensure_unique_spec fs p
  rw [heq]
  exact hfree

/-! ### Batch driver counting lemmas -/

theorem processOneFile_counts (env : Env) (root review : FPath) (acc : BatchResult) (f : FPath) :
    (processOneFile env root review acc f).outcomes.length = acc.outcomes.length + 1 ∧
    (processOneFile env root review acc f).updates = acc.updates + 1 := by
  cases h : (process_png_file env acc.fs f root review).err <;>
    simp [processOneFile, h]

theorem batch_foldl_counts (env : Env) (root review : FPath) :
    ∀ (files : List FPath) (acc : BatchResult),
      (files.foldl (processOneFile env root review) acc).outcomes.length
        = acc.outcomes.length + files.length ∧
      (files.foldl (processOneFile env root review) acc).updates
        = acc.updates + files.length := by
  intro files
  induction files with
  | nil => intro acc; simp
  | cons f rest ih =>
    intro acc
    rw [List.foldl_cons]
    obtain ⟨h1, h2⟩ := ih (processOneFile env root review acc f)
    obtain ⟨g1, g2⟩ := processOneFile_counts env root review acc f
    constructor
    · rw [h1, g1, List.length_cons]; omega
    · rw [h2, g2, List.length_cons]; omega

/-! ### Claims -/

/-- Claim C7: for every filesystem state and desired path, the allocator
returns the desired path unchanged when nothing exists there; the returned
path never exists in the filesystem; being a pure function of the
filesystem and the desired path, two consecutive calls (with no file
created in between) return the same path; and when the desired path exists,
the result is the first candidate of the sequence obtained by appending
`_1`, `_2`, ... to the original filename stem with the extension
preserved (`visitPath`) at which no file exists. -/
theorem c7_unique_path_allocation (fs : FS) (p : FPath) :
    (fsExists fs p = false → ensure_unique_filename fs p = p) ∧
    fsExists fs (ensure_unique_filename fs p) = false ∧
    ensure_unique_filename fs p = ensure_unique_filename fs p ∧
    (fsExists fs p = true →
      ∃ j, 1 ≤ j ∧ ensure_unique_filename fs p = visitPath p j ∧
        fsExists fs (visitPath p j) = false ∧
        ∀ i, i < j → fsExists fs (visitPath p i) = true) := by
  refine ⟨?_, ensure_unique_not_exists fs p, rfl, ?_⟩
  · intro h
    have h0 : ensure_unique_filename fs p = uniqueLoop fs p (fs.length + 1) 1 p := rfl
    rw [h0, uniqueLoop_succ, h]
    rfl
  · intro h
    obtain ⟨j, heq, hfree, hall⟩ := ensure_unique_spec fs p
    refine ⟨j, ?_, heq, hfree, hall⟩
    cases j with
    | zero =>
      rw [visitPath_zero, h] at hfree
      cases hfree
    | succ j2 => omega

/-- Witness for C7: on an empty filesystem the desired path is returned
unchanged; on a filesystem where the desired path exists, the theorem
produces a fresh suffixed candidate. -/
theorem c7_witness :
    ensure_unique_filename ([] : FS) ["a", "x.json"] = ["a", "x.json"] ∧
    ∃ j, 1 ≤ j ∧
      ensure_unique_filename demoFS ["root", "a", "img.png"]
        = visitPath ["root", "a", "img.png"] j ∧
      fsExists demoFS (visitPath ["root", "a", "img.png"] j) = false ∧
      ∀ i, i < j → fsExists demoFS (visitPath ["root", "a", "img.png"] i) = true :=
  ⟨(c7_unique_path_allocation [] ["a", "x.json"]).1 (by decide),
   (c7_unique_path_allocation demoFS ["root", "a", "img.png"]).2.2.2 (by decide)⟩

/-- Claim C2: for every batch, every discovered file yields exactly one
recorded outcome (an exception escaping one pipeline invocation is caught by
the driver and recorded as a per-file failure), and the number of completed
progress updates equals the number of files discovered at enumeration. -/
theorem c2_failure_isolation (env : Env) (fs : FS) (folder review : FPath) :
    (process_images_concurrently env fs folder review).outcomes.length
      = (rglobPng fs folder).length ∧
    (process_images_concurrently env fs folder review).updates
      = (rglobPng fs folder).length := by
  cases h : (rglobPng fs folder).isEmpty
  · have hfold := batch_foldl_counts env folder review (rglobPng fs folder) ⟨fs, [], 0, []⟩
    simp only [process_images_concurrently, h] at *
    simpa using hfold
  · have he : rglobPng fs folder = [] := List.isEmpty_iff.mp h
    simp [process_images_concurrently, h, he]

/-- Claim C5 (amended): the converter returns true exactly when the external
encoder exits zero; a non-zero exit returns false and records a diagnostic;
but a failure to launch the external process raises `FileNotFoundError` to
the caller instead of returning false. -/
theorem c5_converter_contract (env : Env) (fs : FS) (src dst : FPath) :
    (env.magick src dst = .exit 0 → (compress_to_avif env fs src dst).result = .ok true) ∧
    (∀ c, env.magick src dst = .exit (c + 1) →
      (compress_to_avif env fs src dst).result = .ok false ∧
      Event.print ("Error compressing " ++ pathToStr src ++ " to AVIF")
        ∈ (compress_to_avif env fs src dst).trace) ∧
    (env.magick src dst = .launchFail →
      (compress_to_avif env fs src dst).result = .error .fileNotFoundError) := by
  refine ⟨?_, ?_, ?_⟩
  · intro h; simp [compress_to_avif, h]
  · intro c h; simp [compress_to_avif, h]
  · intro h; simp [compress_to_avif, h]

/-- Counterexample for C5 as stated: when the encoder fails to launch, the
converter does not return false — the exception propagates to its caller. -/
theorem c5_counterexample :
    (compress_to_avif launchFailEnv [] ["img.png"] ["img.avif"]).result ≠ .ok false ∧
    (compress_to_avif launchFailEnv [] ["img.png"] ["img.avif"]).result
      = .error .fileNotFoundError := by
  constructor
  · intro h
    simp [compress_to_avif, launchFailEnv] at h
  · rfl

/-- Witness for C5 at a concrete environment with a succeeding encoder. -/
theorem c5_witness :
    (compress_to_avif plainOkEnv [] ["img.png"] ["img.avif"]).result = .ok true :=
  (c5_converter_contract plainOkEnv [] ["img.png"] ["img.avif"]).1 rfl

/-- Claim C10: `save_metadata` opens (creates or truncates) the file at the
allocated sidecar path before serializing, so when JSON serialization fails
with a `TypeError` the call still returns normally, with an empty sidecar
file left at that path and a diagnostic recorded. -/
theorem c10_sidecar_write_not_atomic (env : Env) (fs : FS) (p : FPath) (tag : String)
    (hopen : env.openFail (ensure_unique_filename fs (withSuffix p ".json")) = false) :
    (save_metadata env fs p (.other tag) ".json").err = .ok () ∧
    fsLookup (save_metadata env fs p (.other tag) ".json").fs
      (ensure_unique_filename fs (withSuffix p ".json")) = some (.file "") ∧
    Event.print ("Error saving JSON metadata for " ++ pathToStr p)
      ∈ (save_metadata env fs p (.other tag) ".json").trace := by
  refine ⟨?_, ?_, ?_⟩ <;> simp [save_metadata, hopen, serializePy, fsLookup_fsInsert]

/-- Witness for C10 on a concrete filesystem and non-serializable value. -/
theorem c10_witness :
    (save_metadata plainOkEnv demoFS ["root", "a", "img.png"]
        (.other "unserializable") ".json").err = .ok () ∧
    fsLookup (save_metadata plainOkEnv demoFS ["root", "a", "img.png"]
        (.other "unserializable") ".json").fs
      (ensure_unique_filename demoFS (withSuffix ["root", "a", "img.png"] ".json"))
      = some (.file "") := by
  have h := c10_sidecar_write_not_atomic plainOkEnv demoFS ["root", "a", "img.png"]
    "unserializable" rfl
  exact ⟨h.1, h.2.1⟩

/-- Claim C8 (amended): when a required tool is missing from the search path,
or when the scan root is not a directory, the program aborts before touching
any file and prints a diagnostic — but it then returns normally from `main`,
so the process exit status is 0, not a failure signal. -/
theorem c8_preflight_abort (menv : MainEnv) (fs : FS) :
    (menv.magickOnPath = false →
      (main_run menv fs).fs = fs ∧ (main_run menv fs).exitCode = 0 ∧
      (main_run menv fs).trace
        = [.print "magick is not installed or not in the system PATH."]) ∧
    (menv.magickOnPath = true → menv.exiftoolOnPath = false →
      (main_run menv fs).fs = fs ∧ (main_run menv fs).exitCode = 0 ∧
      (main_run menv fs).trace
        = [.print "exiftool is not installed or not in the system PATH."]) ∧
    (menv.magickOnPath = true → menv.exiftoolOnPath = true →
      fsIsDir fs menv.imagesFolder = false →
      (main_run menv fs).fs = fs ∧ (main_run menv fs).exitCode = 0 ∧
      (main_run menv fs).trace
        = [.print ("Invalid path: " ++ pathToStr menv.imagesFolder
              ++ " is not a directory.")]) := by
  refine ⟨?_, ?_, ?_⟩
  · intro h
    simp [main_run, check_dependencies, h]
  · intro h1 h2
    simp [main_run, check_dependencies, h1, h2]
  · intro h1 h2 h3
    simp [main_run, check_dependencies, h1, h2, h3]

/-- Counterexample for C8 as stated: with ImageMagick missing, the program
prints the diagnostic but finishes with exit status 0, not a non-zero
failure signal. -/
theorem c8_counterexample :
    (main_run noMagickMainEnv []).exitCode = 0 ∧
    (main_run noMagickMainEnv []).trace
      = [Event.print "magick is not installed or not in the system PATH."] :=
  ⟨rfl, rfl⟩

/-- Witness for C8 with an invalid scan root: no file is touched and the
exit status is 0. -/
theorem c8_witness :
    (main_run badDirMainEnv demoFS).exitCode = 0 ∧
    (main_run badDirMainEnv demoFS).fs = demoFS := by
  have h := (c8_preflight_abort badDirMainEnv demoFS).2.2 rfl rfl (by decide)
  exact ⟨h.2.1, h.1⟩

/-! ### Classify phase helper lemmas -/

theorem classify_raw_workflow (env : Env) (fs : FS) (p : FPath) (v : String)
    (hW : metaLookup (env.exifMeta p) "Workflow" = some v)
    (hparse : json_loads v = none)
    (hopen : env.openFail (ensure_unique_filename fs (withSuffix p ".json")) = false) :
    classify_and_write env fs p =
      ⟨fsInsert (fsInsert fs (ensure_unique_filename fs (withSuffix p ".json")) (.file ""))
          (ensure_unique_filename fs (withSuffix p ".json")) (.file (encodeJsonString v)),
        [.print ("Error parsing Workflow metadata in " ++ pathToStr p),
         .openCall (ensure_unique_filename fs (withSuffix p ".json")),
         .print ("Saved metadata to "
             ++ pathToStr (ensure_unique_filename fs (withSuffix p ".json")))],
        .ok ()⟩ := by
  simp [classify_and_write, extract_metadata, hW, hparse, save_metadata, hopen, serializePy,
    jsonDump]

theorem classify_params_txt (env : Env) (fs : FS) (p : FPath) (v : String)
    (hW : metaLookup (env.exifMeta p) "Workflow" = none)
    (hP : metaLookup (env.exifMeta p) "Parameters" = some v)
    (hopen : env.openFail (ensure_unique_filename fs (withSuffix p ".txt")) = false) :
    classify_and_write env fs p =
      ⟨fsInsert (fsInsert fs (ensure_unique_filename fs (withSuffix p ".txt")) (.file ""))
          (ensure_unique_filename fs (withSuffix p ".txt")) (.file v),
        [.openCall (ensure_unique_filename fs (withSuffix p ".txt")),
         .print ("Saved metadata to "
             ++ pathToStr (ensure_unique_filename fs (withSuffix p ".txt")))],
        .ok ()⟩ := by
  simp [classify_and_write, extract_metadata, hW, hP, save_metadata, hopen, pyStrOf]

theorem process_of_classify_ok (env : Env) (fs : FS) (p root review : FPath)
    (h : (classify_and_write env fs p).err = .ok ()) :
    Event.convertCall p (withSuffix p ".avif") ∈ (process_png_file env fs p root review).trace ∧
    ∀ ev, ev ∈ (classify_and_write env fs p).trace →
      ev ∈ (process_png_file env fs p root review).trace := by
  rcases hcl : classify_and_write env fs p with ⟨fs1, tr1, err1⟩
  rw [hcl] at h
  simp only at h
  subst h
  rcases hm : env.magick p (withSuffix p ".avif") with n | _
  · cases n with
    | zero =>
      constructor
      · simp [process_png_file, hcl, compress_to_avif, hm]
      · intro ev hev
        simp only [hcl] at hev
        simp [process_png_file, hcl, compress_to_avif, hm, List.mem_append]
        tauto
    | succ c =>
      constructor
      · simp [process_png_file, hcl, compress_to_avif, hm]
      · intro ev hev
        simp only [hcl] at hev
        simp [process_png_file, hcl, compress_to_avif, hm, List.mem_append]
        tauto
  · constructor
    · simp [process_png_file, hcl, compress_to_avif, hm]
    · intro ev hev
      simp only [hcl] at hev
      simp [process_png_file, hcl, compress_to_avif, hm, List.mem_append]
      tauto

/-- Claim C4 (amended): for a metadata mapping whose Workflow value is not
parseable as JSON, the classifier still writes a `.json` sidecar and no
exception escapes, provided the sidecar file can be opened; the sidecar
content, however, is the JSON string-encoding of the raw value (the raw
string wrapped in quotes with escapes applied by `json.dump`), not the raw
string itself. -/
theorem c4_malformed_payload_preserved (env : Env) (fs : FS) (p : FPath) (v : String)
    (hW : metaLookup (env.exifMeta p) "Workflow" = some v)
    (hparse : json_loads v = none)
    (hopen : env.openFail (ensure_unique_filename fs (withSuffix p ".json")) = false) :
    (classify_and_write env fs p).err = .ok () ∧
    fsLookup (classify_and_write env fs p).fs
      (ensure_unique_filename fs (withSuffix p ".json"))
      = some (.file (encodeJsonString v)) := by
  rw [classify_raw_workflow env fs p v hW hparse hopen]
  constructor
  · rfl
  · simp [fsLookup_fsInsert]

/-- Counterexample for C4 as stated: for the unparseable Workflow value
`nope`, the sidecar written holds the quoted JSON encoding of the string,
not the raw string itself. -/
theorem c4_counterexample :
    fsLookup (classify_and_write badWorkflowEnv [] ["img.png"]).fs ["img.json"]
      ≠ some (Entry.file "nope") ∧
    fsLookup (classify_and_write badWorkflowEnv [] ["img.png"]).fs ["img.json"]
      = some (Entry.file "\"nope\"") := by
  constructor
  · decide
  · decide

/-- Witness for C4 on a concrete filesystem and environment. -/
theorem c4_witness :
    (classify_and_write badWorkflowEnv demoFS ["root", "a", "img.png"]).err = .ok () ∧
    fsLookup (classify_and_write badWorkflowEnv demoFS ["root", "a", "img.png"]).fs
      (ensure_unique_filename demoFS (withSuffix ["root", "a", "img.png"] ".json"))
      = some (.file (encodeJsonString "nope")) :=
  c4_malformed_payload_preserved badWorkflowEnv demoFS ["root", "a", "img.png"] "nope"
    rfl rfl rfl

/-- Claim C3 (amended): a sidecar open failure raises out of the
classify-and-write step and aborts that file's pipeline before any
conversion is attempted (the exception is caught only at the batch driver);
by contrast, a metadata parse failure is handled inside the step and
conversion is still attempted. -/
theorem c3_sidecar_open_failure_fatal (env : Env) (fs : FS) (p root review : FPath)
    (v : String) :
    (metaLookup (env.exifMeta p) "Workflow" = none →
     metaLookup (env.exifMeta p) "Parameters" = some v →
     env.openFail (ensure_unique_filename fs (withSuffix p ".txt")) = true →
     (process_png_file env fs p root review).err = .error .oserror ∧
     ∀ s d, Event.convertCall s d ∉ (process_png_file env fs p root review).trace) ∧
    (metaLookup (env.exifMeta p) "Workflow" = some v →
     json_loads v = none →
     env.openFail (ensure_unique_filename fs (withSuffix p ".json")) = false →
     Event.convertCall p (withSuffix p ".avif")
       ∈ (process_png_file env fs p root review).trace) := by
  constructor
  · intro hW hP hopen
    have hcl : classify_and_write env fs p
        = ⟨fs, [.openCall (ensure_unique_filename fs (withSuffix p ".txt"))],
            .error .oserror⟩ := by
      simp [classify_and_write, extract_metadata, hW, hP, save_metadata, hopen]
    constructor
    · simp [process_png_file, hcl]
    · intro s d
      simp [process_png_file, hcl]
  · intro hW hparse hopen
    have hok : (classify_and_write env fs p).err = .ok () := by
      rw [classify_raw_workflow env fs p v hW hparse hopen]
    exact (process_of_classify_ok env fs p root review hok).1

/-- Counterexample for C3 as stated: with a Parameters tag present and the
sidecar open failing, the pipeline raises and never attempts conversion. -/
theorem c3_counterexample :
    (process_png_file openFailEnv [] ["img.png"] [] ["rev"]).err = .error .oserror ∧
    (process_png_file openFailEnv [] ["img.png"] [] ["rev"]).trace
      = [Event.openCall ["img.txt"]] ∧
    ∀ s d, Event.convertCall s d ∉ (process_png_file openFailEnv [] ["img.png"] [] ["rev"]).trace := by
  refine ⟨rfl, rfl, ?_⟩
  intro s d h
  rw [show (process_png_file openFailEnv [] ["img.png"] [] ["rev"]).trace
      = [Event.openCall ["img.txt"]] from rfl] at h
  simp at h

/-- Witness for C3 at concrete inputs for both conjuncts. -/
theorem c3_witness :
    ((process_png_file openFailEnv demoFS ["root", "a", "img.png"] ["root"] ["rev"]).err
        = .error .oserror ∧
      ∀ s d, Event.convertCall s d
        ∉ (process_png_file openFailEnv demoFS ["root", "a", "img.png"] ["root"] ["rev"]).trace) ∧
    Event.convertCall ["root", "a", "img.png"] (withSuffix ["root", "a", "img.png"] ".avif")
      ∈ (process_png_file badWorkflowEnv demoFS ["root", "a", "img.png"] ["root"] ["rev"]).trace :=
  ⟨(c3_sidecar_open_failure_fatal openFailEnv demoFS ["root", "a", "img.png"] ["root"] ["rev"]
      "steps: 20").1 rfl rfl rfl,
   (c3_sidecar_open_failure_fatal badWorkflowEnv demoFS ["root", "a", "img.png"] ["root"] ["rev"]
      "nope").2 rfl rfl rfl⟩

/-- Claim C9: the conversion destination is exactly the source path with its
suffix replaced by `.avif`, never passed through the unique path allocator,
even when a file already exists there — so a successful re-run overwrites
the stale artifact — while the sidecar path in the very same run does go
through the allocator. -/
theorem c9_conversion_destination_exact (env : Env) (fs : FS) (p root review : FPath)
    (v : String)
    (hW : metaLookup (env.exifMeta p) "Workflow" = none)
    (hP : metaLookup (env.exifMeta p) "Parameters" = some v)
    (hopen : env.openFail (ensure_unique_filename fs (withSuffix p ".txt")) = false)
    (_hexist : fsExists fs (withSuffix p ".avif") = true) :
    Event.convertCall p (withSuffix p ".avif")
      ∈ (process_png_file env fs p root review).trace ∧
    Event.openCall (ensure_unique_filename fs (withSuffix p ".txt"))
      ∈ (process_png_file env fs p root review).trace ∧
    (env.magick p (withSuffix p ".avif") = .exit 0 →
      fsLookup (compress_to_avif env fs p (withSuffix p ".avif")).fs (withSuffix p ".avif")
        = some (.file (avifContent p))) := by
  have hcl := classify_params_txt env fs p v hW hP hopen
  have hok : (classify_and_write env fs p).err = .ok () := by rw [hcl]
  obtain ⟨hconv, hsub⟩ := process_of_classify_ok env fs p root review hok
  refine ⟨hconv, ?_, ?_⟩
  · apply hsub
    rw [hcl]
    simp
  · intro hm
    simp [compress_to_avif, hm, fsLookup_fsInsert]

/-- Witness for C9: the stale artifact scenario at concrete inputs. -/
theorem c9_witness :
    Event.convertCall ["root", "a", "img.png"] (withSuffix ["root", "a", "img.png"] ".avif")
      ∈ (process_png_file paramsEnv existingAvifFS ["root", "a", "img.png"]
          ["root"] ["rev"]).trace ∧
    fsLookup (compress_to_avif paramsEnv existingAvifFS ["root", "a", "img.png"]
        (withSuffix ["root", "a", "img.png"] ".avif")).fs
      (withSuffix ["root", "a", "img.png"] ".avif")
      = some (.file (avifContent ["root", "a", "img.png"])) := by
  have h := c9_conversion_destination_exact paramsEnv existingAvifFS ["root", "a", "img.png"]
    ["root"] ["rev"] "steps: 20" rfl rfl rfl (by decide)
  exact ⟨h.1, h.2.2 rfl⟩

/-! ### Relocation helper lemmas -/

theorem fsIsDir_of_file {fs : FS} {q : FPath} {c : String}
    (h : fsLookup fs q = some (.file c)) : fsIsDir fs q = false := by
  simp [fsIsDir, h]

theorem fsExists_of_lookup {fs : FS} {q : FPath} {e : Entry}
    (h : fsLookup fs q = some e) : fsExists fs q = true := by
  simp [fsExists, h]

theorem mkdirParentsAux_preserves (ds : List FPath) :
    ∀ (fs : FS) (q : FPath) (e : Entry), fsLookup fs q = some e →
      fsLookup (mkdirParentsAux fs ds).1 q = some e := by
  induction ds with
  | nil => intro fs q e h; exact h
  | cons d rest ih =>
    intro fs q e h
    cases hd : fsLookup fs d with
    | none =>
      simp only [mkdirParentsAux, hd]
      apply ih
      rw [fsLookup_fsInsert]
      split
      · next hdq =>
        rw [hdq, h] at hd
        cases hd
      · exact h
    | some ed =>
      cases ed with
      | file c => simp only [mkdirParentsAux, hd]; exact h
      | dir => simp only [mkdirParentsAux, hd]; exact ih fs q e h

theorem mkdirParents_preserves (fs : FS) (d : FPath) {q : FPath} {e : Entry}
    (h : fsLookup fs q = some e) : fsLookup (mkdirParents fs d).1 q = some e :=
  mkdirParentsAux_preserves _ fs q e h

theorem shutilMoveRename_cons (q : FPath) (e0 : Entry) (rest : FS) (src real : FPath) :
    shutilMoveRename ((q, e0) :: rest) src real =
      if q = real then shutilMoveRename rest src real
      else (if listLe src q then (real ++ q.drop src.length, e0) else (q, e0))
            :: shutilMoveRename rest src real := by
  by_cases h : q = real
  · simp [shutilMoveRename, fsErase, h]
  · simp [shutilMoveRename, fsErase, h]

theorem fsLookup_rename_dst (src real : FPath) (e : Entry) (hne : src ≠ real) :
    ∀ fs : FS, fsLookup fs src = some e →
      fsLookup (shutilMoveRename fs src real) real = some e := by
  intro fs
  induction fs with
  | nil => intro h; cases h
  | cons pr rest ih =>
    obtain ⟨q, e0⟩ := pr
    intro h
    rw [shutilMoveRename_cons]
    by_cases hq : q = real
    · rw [if_pos hq]
      apply ih
      have hqs : ¬ q = src := fun hqs => hne (by rw [← hqs, hq])
      rw [fsLookup, if_neg hqs] at h
      exact h
    · rw [if_neg hq]
      by_cases hqs : q = src
      · subst hqs
        rw [fsLookup, if_pos rfl] at h
        injection h with he
        rw [if_pos (listLe_refl q), List.drop_length, List.append_nil, fsLookup, if_pos rfl, he]
      · rw [fsLookup, if_neg hqs] at h
        have hrec := ih h
        by_cases hle : listLe src q = true
        · rw [if_pos hle, fsLookup]
          have hlen : src.length < q.length := by
            have h1 := listLe_length hle
            rcases Nat.lt_or_ge src.length q.length with h2 | h2
            · exact h2
            · exact absurd (listLe_eq_of_length hle h2).symm hqs
          have hneq : ¬ (real ++ q.drop src.length = real) := by
            intro heq
            have hlg := congrArg List.length heq
            rw [List.length_append, List.length_drop] at hlg
            omega
          rw [if_neg hneq]
          exact hrec
        · rw [if_neg hle, fsLookup, if_neg hq]
          exact hrec

theorem shutil_move_error_fs (fs : FS) (src dst : FPath) (fs2 : FS) (e : PyErr)
    (h : shutil_move fs src dst = (fs2, .error e)) : fs2 = fs := by
  by_cases hdir : fsIsDir fs dst = true
  · by_cases hreal : fsExists fs (dst ++ [pathName src]) = true
    · have hval : shutil_move fs src dst = (fs, .error .shutilError) := by
        simp [shutil_move, hdir, hreal]
      rw [hval] at h
      injection h with h1 _
      exact h1.symm
    · by_cases hsrc : fsExists fs src = true
      · have hval : shutil_move fs src dst
            = (shutilMoveRename fs src (dst ++ [pathName src]),
               .ok (dst ++ [pathName src])) := by
          simp [shutil_move, hdir, hreal, hsrc]
        rw [hval] at h
        injection h with _ h2
        simp at h2
      · have hval : shutil_move fs src dst = (fs, .error .fileNotFoundError) := by
          simp [shutil_move, hdir, hreal, hsrc]
        rw [hval] at h
        injection h with h1 _
        exact h1.symm
  · by_cases hsrc : fsExists fs src = true
    · by_cases hcond : (fsIsDir fs src && fsIsFile fs dst) = true
      · have hval : shutil_move fs src dst = (fs, .error .oserror) := by
          simp only [shutil_move]
          rw [if_neg hdir, if_pos hsrc, if_pos hcond]
        rw [hval] at h
        injection h with h1 _
        exact h1.symm
      · have hval : shutil_move fs src dst = (shutilMoveRename fs src dst, .ok dst) := by
          simp only [shutil_move]
          rw [if_neg hdir, if_pos hsrc, if_neg hcond]
        rw [hval] at h
        injection h with _ h2
        simp at h2
    · have hval : shutil_move fs src dst = (fs, .error .fileNotFoundError) := by
        simp [shutil_move, hdir, hsrc]
      rw [hval] at h
      injection h with h1 _
      exact h1.symm

/-- Claim C6 (amended): the relocator does not guard against an existing
regular file at the computed destination — the move succeeds and silently
replaces it with the source content (rename/overwrite semantics of
`shutil.move`); and whenever the relocation fails for any reason, the
source file is not deleted. -/
theorem c6_relocation_contract (fs : FS) (src root review rel : FPath) (cs cd : String) :
    (relativeTo src root = some rel →
     fsLookup fs src = some (.file cs) →
     fsLookup fs (review ++ rel) = some (.file cd) →
     src ≠ review ++ rel →
     ∀ fs1, mkdirParents fs (review ++ rel).dropLast = (fs1, .ok ()) →
     (move_file_with_structure fs src root review).err = .ok () ∧
     fsLookup (move_file_with_structure fs src root review).fs (review ++ rel)
       = some (.file cs)) ∧
    (∀ e, (move_file_with_structure fs src root review).err = .error e →
     fsLookup fs src = some (.file cs) →
     fsLookup (move_file_with_structure fs src root review).fs src = some (.file cs)) := by
  constructor
  · intro hrel hsrc hdst hne fs1 hmk
    have hsrc1 : fsLookup fs1 src = some (.file cs) := by
      have h2 := mkdirParents_preserves fs (review ++ rel).dropLast hsrc
      rw [hmk] at h2
      exact h2
    have hdst1 : fsLookup fs1 (review ++ rel) = some (.file cd) := by
      have h2 := mkdirParents_preserves fs (review ++ rel).dropLast hdst
      rw [hmk] at h2
      exact h2
    have hmove : shutil_move fs1 src (review ++ rel)
        = (shutilMoveRename fs1 src (review ++ rel), .ok (review ++ rel)) := by
      simp only [shutil_move]
      rw [if_neg (by simp [fsIsDir_of_file hdst1])]
      rw [if_pos (fsExists_of_lookup hsrc1)]
      rw [if_neg (by simp [fsIsDir_of_file hsrc1])]
    constructor
    · simp [move_file_with_structure, hrel, hmk, hmove]
    · simp only [move_file_with_structure, hrel, hmk, hmove]
      exact fsLookup_rename_dst src (review ++ rel) _ hne fs1 hsrc1
  · intro e herr hsrc
    cases hrel : relativeTo src root with
    | none =>
      simp [move_file_with_structure, hrel]
      exact hsrc
    | some rel2 =>
      rcases hmk : mkdirParents fs (review ++ rel2).dropLast with ⟨fs1, mkres⟩
      have hsrc1 : fsLookup fs1 src = some (.file cs) := by
        have h2 := mkdirParents_preserves fs (review ++ rel2).dropLast hsrc
        rw [hmk] at h2
        exact h2
      cases mkres with
      | error e2 =>
        simp [move_file_with_structure, hrel, hmk]
        exact hsrc1
      | ok u =>
        rcases hmv : shutil_move fs1 src (review ++ rel2) with ⟨fs2, mvres⟩
        cases mvres with
        | ok real =>
          exfalso
          rw [move_file_with_structure] at herr
          simp only [hrel, hmk, hmv] at herr
          simp at herr
        | error e2 =>
          have hfs2 : fs2 = fs1 := shutil_move_error_fs fs1 src (review ++ rel2) fs2 e2 hmv
          rw [move_file_with_structure]
          simp only [hrel, hmk, hmv]
          rw [hfs2]
          exact hsrc1

/-- Counterexample for C6 as stated: a regular file already present at the
computed destination is silently overwritten, and the move reports
success. -/
theorem c6_counterexample :
    (move_file_with_structure overwriteFS ["s.png"] [] ["rev"]).err = .ok () ∧
    fsLookup overwriteFS ["rev", "s.png"] = some (Entry.file "OLD") ∧
    fsLookup (move_file_with_structure overwriteFS ["s.png"] [] ["rev"]).fs ["rev", "s.png"]
      = some (Entry.file "S") ∧
    fsLookup (move_file_with_structure overwriteFS ["s.png"] [] ["rev"]).fs ["s.png"]
      = none :=
  ⟨rfl, rfl, rfl, rfl⟩

/-- Witness for C6 at concrete inputs. -/
theorem c6_witness :
    (move_file_with_structure overwriteFS ["s.png"] [] ["rev"]).err = .ok () ∧
    fsLookup (move_file_with_structure overwriteFS ["s.png"] [] ["rev"]).fs ["rev", "s.png"]
      = some (Entry.file "S") :=
  (c6_relocation_contract overwriteFS ["s.png"] [] ["rev"] ["s.png"] "S" "OLD").1 rfl rfl rfl
    (by decide) overwriteFS rfl

/-! ### Sidecar path and classify phase lemmas for claim C1 -/

theorem save_metadata_fs_lookup (env : Env) (fs : FS) (fp : FPath) (m : PyValue) (ext : String)
    (q : FPath) (hq : q ≠ ensure_unique_filename fs (withSuffix fp ext)) :
    fsLookup (save_metadata env fs fp m ext).fs q = fsLookup fs q := by
  have hu : ¬ (ensure_unique_filename fs (withSuffix fp ext) = q) := fun h => hq h.symm
  by_cases ho : env.openFail (ensure_unique_filename fs (withSuffix fp ext)) = true
  · simp [save_metadata, ho]
  · have ho2 : env.openFail (ensure_unique_filename fs (withSuffix fp ext)) = false := by
      cases hb : env.openFail (ensure_unique_filename fs (withSuffix fp ext))
      · rfl
      · exact absurd hb ho
    by_cases hj : ext = ".json"
    · subst hj
      cases hs : serializePy m with
      | some out => simp [save_metadata, ho2, hs, fsLookup_fsInsert, hu]
      | none => simp [save_metadata, ho2, hs, fsLookup_fsInsert, hu]
    · simp [save_metadata, ho2, hj, fsLookup_fsInsert, hu]

theorem save_metadata_no_move (env : Env) (fs : FS) (fp : FPath) (m : PyValue) (ext : String)
    (s d : FPath) : Event.moveCall s d ∉ (save_metadata env fs fp m ext).trace := by
  by_cases ho : env.openFail (ensure_unique_filename fs (withSuffix fp ext)) = true
  · simp [save_metadata, ho]
  · have ho2 : env.openFail (ensure_unique_filename fs (withSuffix fp ext)) = false := by
      cases hb : env.openFail (ensure_unique_filename fs (withSuffix fp ext))
      · rfl
      · exact absurd hb ho
    by_cases hj : ext = ".json"
    · subst hj
      cases hs : serializePy m with
      | some out => simp [save_metadata, ho2, hs]
      | none => simp [save_metadata, ho2, hs]
    · simp [save_metadata, ho2, hj]

theorem classify_fs_lookup (env : Env) (fs : FS) (p q : FPath)
    (hq1 : q ≠ ensure_unique_filename fs (withSuffix p ".json"))
    (hq2 : q ≠ ensure_unique_filename fs (withSuffix p ".txt")) :
    fsLookup (classify_and_write env fs p).fs q = fsLookup fs q := by
  rw [classify_and_write]
  cases hW : metaLookup (extract_metadata env p) "Workflow" with
  | some v =>
    cases hparse : json_loads v with
    | some j =>
      simp only [hparse]
      simpa using save_metadata_fs_lookup env fs p (.jsonVal j) ".json" q hq1
    | none =>
      simp only [hparse]
      simpa using save_metadata_fs_lookup env fs p (.str v) ".json" q hq1
  | none =>
    cases hP : metaLookup (extract_metadata env p) "Parameters" with
    | some v => simpa using save_metadata_fs_lookup env fs p (.str v) ".txt" q hq2
    | none => simp

theorem classify_no_move (env : Env) (fs : FS) (p : FPath) (s d : FPath) :
    Event.moveCall s d ∉ (classify_and_write env fs p).trace := by
  rw [classify_and_write]
  cases hW : metaLookup (extract_metadata env p) "Workflow" with
  | some v =>
    cases hparse : json_loads v with
    | some j =>
      simp only [hparse]
      simpa using save_metadata_no_move env fs p (.jsonVal j) ".json" s d
    | none =>
      simp only [hparse, List.mem_cons]
      intro hmem
      rcases hmem with h | h
      · cases h
      · exact save_metadata_no_move env fs p (.str v) ".json" s d h
  | none =>
    cases hP : metaLookup (extract_metadata env p) "Parameters" with
    | some v => simpa using save_metadata_no_move env fs p (.str v) ".txt" s d
    | none => simp

theorem pathName_withSuffix_data (p : FPath) (ext : String) :
    (pathName (withSuffix p ext)).data = (pathStem p).data ++ ext.data := by
  rw [withSuffix, withName, pathName, List.getLastD_concat, String.data_append]

theorem dropLast_withSuffix (p : FPath) (ext : String) :
    (withSuffix p ext).dropLast = p.dropLast := by
  rw [withSuffix, withName, List.dropLast_concat]

theorem visit_withSuffix_form (p : FPath) (ext : String) (j : Nat) :
    ∃ nm, visitPath (withSuffix p ext) j = p.dropLast ++ [nm] := by
  cases j with
  | zero => exact ⟨pathStem p ++ ext, rfl⟩
  | succ k =>
    refine ⟨pathStem (withSuffix p ext) ++ "_" ++ natRepr (k + 1)
        ++ pathSuffix (withSuffix p ext), ?_⟩
    rw [visitPath_succ, dropLast_withSuffix]

theorem ensure_sidecar_ne_self (fs : FS) (p : FPath) (ext : String)
    (hpng : pathSuffix p = ".png") (hext : ext = ".json" ∨ ext = ".txt") :
    ensure_unique_filename fs (withSuffix p ext) ≠ p := by
  obtain ⟨j, heq, _, _⟩ := ensure_unique_spec fs (withSuffix p ext)
  rw [heq]
  intro hcontra
  have hsuffd : (pathSuffix p).data = ".png".data := congrArg String.data hpng
  cases j with
  | zero =>
    rw [visitPath_zero, withSuffix, withName] at hcontra
    have hn := congrArg (fun l => List.getLastD l "") hcontra
    simp only [List.getLastD_concat] at hn
    have hd := congrArg String.data hn
    rw [String.data_append] at hd
    rw [show (List.getLastD p "").data = (pathName p).data from rfl,
      ← stem_data_append_suffix_data p] at hd
    have hcan := List.append_cancel_left hd
    rw [hsuffd] at hcan
    rcases hext with rfl | rfl
    · exact absurd hcan (by decide)
    · exact absurd hcan (by decide)
  | succ k =>
    rw [visitPath_succ, dropLast_withSuffix] at hcontra
    have hn := congrArg (fun l => List.getLastD l "") hcontra
    simp only [List.getLastD_concat] at hn
    have hd := congrArg String.data hn
    rw [candName_data] at hd
    have hlen := congrArg List.length hd
    have h1 := congrArg List.length (stem_data_append_suffix_data (withSuffix p ext))
    rw [pathName_withSuffix_data] at h1
    have hnr : 0 < (natReprAux (k + 1 + 1) (k + 1)).length :=
      List.length_pos.mpr (natReprAux_ne_nil _ _)
    have hright : (pathName p).data.length = (pathStem p).data.length + 4 := by
      rw [← stem_data_append_suffix_data p, hsuffd, List.length_append]
      have h4 : ".png".data.length = 4 := rfl
      omega
    have hextlen : 4 ≤ ext.data.length := by
      rcases hext with rfl | rfl
      · decide
      · decide
    rw [show (List.getLastD p "").data = (pathName p).data from rfl] at hlen
    simp only [List.length_append, List.length_cons] at hlen h1
    omega

theorem ensure_sidecar_not_under (fs : FS) (p review q : FPath) (ext : String)
    (hrev : listLe review p.dropLast = false)
    (hq : listLe review q = true) (hqne : q ≠ review) :
    q ≠ ensure_unique_filename fs (withSuffix p ext) := by
  obtain ⟨j, heq, _, _⟩ := ensure_unique_spec fs (withSuffix p ext)
  rw [heq]
  obtain ⟨nm, hform⟩ := visit_withSuffix_form p ext j
  rw [hform]
  intro hcontra
  subst hcontra
  rcases listLe_concat_cases hq with h1 | h2
  · exact hqne h1.symm
  · rw [h2] at hrev
    cases hrev

/-- Claim C1 (amended): conversion gates relocation — when the converter
reports a non-zero exit, the original file is untouched at its source path
and nothing under the review root is created or changed for it; and a move
into the review tree happens only if the converter reported success (a move
event can only occur after a zero exit). When the converter succeeds the
relocation is attempted and may itself still fail, in which case the
original remains at the source (claim C6). -/
theorem c1_conversion_gates_relocation (env : Env) (fs : FS) (p root review : FPath)
    (hpng : pathSuffix p = ".png")
    (hrev : listLe review p.dropLast = false) :
    (∀ c, env.magick p (withSuffix p ".avif") = .exit (c + 1) →
      fsLookup (process_png_file env fs p root review).fs p = fsLookup fs p ∧
      ∀ q, listLe review q = true → q ≠ review →
        fsLookup (process_png_file env fs p root review).fs q = fsLookup fs q) ∧
    (∀ s d, Event.moveCall s d ∈ (process_png_file env fs p root review).trace →
      env.magick p (withSuffix p ".avif") = .exit 0) := by
  have hp1 : p ≠ ensure_unique_filename fs (withSuffix p ".json") :=
    fun h => (ensure_sidecar_ne_self fs p ".json" hpng (Or.inl rfl)) h.symm
  have hp2 : p ≠ ensure_unique_filename fs (withSuffix p ".txt") :=
    fun h => (ensure_sidecar_ne_self fs p ".txt" hpng (Or.inr rfl)) h.symm
  rcases hcl : classify_and_write env fs p with ⟨fs1, tr1, err1⟩
  have hfs1 : ∀ q, q ≠ ensure_unique_filename fs (withSuffix p ".json") →
      q ≠ ensure_unique_filename fs (withSuffix p ".txt") →
      fsLookup fs1 q = fsLookup fs q := by
    intro q h1 h2
    have h3 := classify_fs_lookup env fs p q h1 h2
    rw [hcl] at h3
    exact h3
  have hnm : ∀ s d, Event.moveCall s d ∉ tr1 := by
    intro s d hmem
    have h3 := classify_no_move env fs p s d
    rw [hcl] at h3
    exact h3 hmem
  have hconc : fsLookup fs1 p = fsLookup fs p ∧
      ∀ q, listLe review q = true → q ≠ review → fsLookup fs1 q = fsLookup fs q :=
    ⟨hfs1 p hp1 hp2, fun q hql hqn =>
      hfs1 q (fun h => (ensure_sidecar_not_under fs p review q ".json" hrev hql hqn) h)
             (fun h => (ensure_sidecar_not_under fs p review q ".txt" hrev hql hqn) h)⟩
  constructor
  · intro c hm
    cases err1 with
    | error e =>
      have hres : (process_png_file env fs p root review).fs = fs1 := by
        simp [process_png_file, hcl]
      rw [hres]
      exact hconc
    | ok u =>
      cases u
      have hres : (process_png_file env fs p root review).fs = fs1 := by
        simp [process_png_file, hcl, compress_to_avif, hm]
      rw [hres]
      exact hconc
  · intro s d hmem
    cases err1 with
    | error e =>
      have hres : (process_png_file env fs p root review).trace = tr1 := by
        simp [process_png_file, hcl]
      rw [hres] at hmem
      exact absurd hmem (hnm s d)
    | ok u =>
      cases u
      rcases hm : env.magick p (withSuffix p ".avif") with n | _
      · cases n with
        | zero => rfl
        | succ c =>
          have hres : (process_png_file env fs p root review).trace
              = tr1 ++ [.convertCall p (withSuffix p ".avif"),
                  .print ("Error compressing " ++ pathToStr p ++ " to AVIF")] := by
            simp [process_png_file, hcl, compress_to_avif, hm]
          rw [hres] at hmem
          rcases List.mem_append.mp hmem with h | h
          · exact absurd h (hnm s d)
          · simp at h
      · have hres : (process_png_file env fs p root review).trace
            = tr1 ++ [.convertCall p (withSuffix p ".avif")] := by
          simp [process_png_file, hcl, compress_to_avif, hm]
        rw [hres] at hmem
        rcases List.mem_append.mp hmem with h | h
        · exact absurd h (hnm s d)
        · simp at h

/-- Counterexample for C1 as stated (the "if and only if" direction): the
converter reports success, yet the original is not moved into the review
root, because the relocation itself fails on a file blocking a needed
destination directory. -/
theorem c1_counterexample :
    plainOkEnv.magick ["root", "a", "img.png"] ["root", "a", "img.avif"] = .exit 0 ∧
    fsLookup (process_png_file plainOkEnv blockedFS ["root", "a", "img.png"]
        ["root"] ["rev"]).fs ["rev", "a", "img.png"] = none ∧
    fsLookup (process_png_file plainOkEnv blockedFS ["root", "a", "img.png"]
        ["root"] ["rev"]).fs ["root", "a", "img.png"] = some (.file "PNG") ∧
    (process_png_file plainOkEnv blockedFS ["root", "a", "img.png"] ["root"] ["rev"]).err
      = .error .fileExistsError :=
  ⟨rfl, rfl, rfl, rfl⟩

/-- Witness for C1: on a converter failure, the original stays and the
review subtree is untouched. -/
theorem c1_witness :
    fsLookup (process_png_file convFailEnv demoFS ["root", "a", "img.png"]
        ["root"] ["rev"]).fs ["root", "a", "img.png"]
      = fsLookup demoFS ["root", "a", "img.png"] ∧
    fsLookup (process_png_file convFailEnv demoFS ["root", "a", "img.png"]
        ["root"] ["rev"]).fs ["rev", "a", "img.png"]
      = fsLookup demoFS ["rev", "a", "img.png"] := by
  have h := (c1_conversion_gates_relocation convFailEnv demoFS ["root", "a", "img.png"]
    ["root"] ["rev"] (by decide) (by decide)).1 0 rfl
  exact ⟨h.1, h.2 ["rev", "a", "img.png"] (by decide) (by decide)⟩
